import Mathlib

/-!
Verification of the podcats feed generator (`podcats/__init__.py`) against its
natural-language specification.  Python strings are modelled as `List Char`,
Unix timestamps as `Int` (`time.mktime` is integral on `strptime` output), and
fallible Python code as `Option`/`Except` values.  The process-local timezone
that `time.mktime` consults is passed explicitly as an integer offset `tz`
(seconds east of UTC, DST folded in): `mktime` interprets the parsed fields as
local time, so the resulting epoch value is the UTC epoch of the fields minus
`tz`.
-/

namespace Podcats

/-- `''.join(f(x) for x in l)`: map and concatenate. -/
def concatMap (f : α → List β) : List α → List β
  | [] => []
  | x :: xs => f x ++ concatMap f xs

/-- `s.replace(c, r)` for a single-character pattern `c`: every occurrence of
the character `c` is replaced by the string `r`.  Python's `str.replace` scans
the original string left to right, so occurrences of `c` inside `r` are not
rescanned, which for a single-character pattern is exactly a map-concatenate. -/
def rep (c : Char) (r : List Char) (l : List Char) : List Char :=
  concatMap (fun x => if x = c then r else [x]) l

/-- Whether the string contains the path separator. -/
def hasSlash (l : List Char) : Bool :=
  l.any (fun c => c == '/')

/-- `os.path.basename(p)` on POSIX: the part after the last `'/'`. -/
def pyBasename : List Char → List Char
  | [] => []
  | c :: cs =>
    if c = '/' then pyBasename cs
    else if hasSlash cs then pyBasename cs else c :: cs

/-- Index of the last `'.'` in the string, if any (`str.rfind('.')`). -/
def rfindDot : List Char → Option Nat
  | [] => none
  | c :: cs =>
    match rfindDot cs with
    | some i => some (i + 1)
    | none => if c = '.' then some 0 else none

/-- The stem part of `os.path.splitext(b)` for a separator-free name `b`:
split at the last dot, unless every character before that dot is itself a dot
(CPython's leading-dot rule, so `.mp3` has no extension). -/
def splitextStem (b : List Char) : List Char :=
  match rfindDot b with
  | none => b
  | some i => if (b.take i).any (fun c => c ≠ '.') then b.take i else b

/-- The extension part of `os.path.splitext(b)` for a separator-free name. -/
def splitextExt (b : List Char) : List Char :=
  match rfindDot b with
  | none => []
  | some i => if (b.take i).any (fun c => c ≠ '.') then b.drop i else []

/-- `s.split(sep)` for a one-character separator: `''.split(sep) = ['']`. -/
def pySplit (sep : Char) : List Char → List (List Char)
  | [] => [[]]
  | c :: cs =>
    let r := pySplit sep cs
    if c = sep then [] :: r
    else
      match r with
      | h :: t => (c :: h) :: t
      | [] => [[c]]

/-- Python's substring test `sub in hay`. -/
def isSubstr (sub : List Char) : List Char → Bool
  | [] => sub.isEmpty
  | c :: cs => sub.isPrefixOf (c :: cs) || isSubstr sub cs

/-- Whether the string contains two consecutive slashes (`'//' in s`). -/
def hasDS : List Char → Bool
  | a :: b :: rest => (a == '/' && b == '/') || hasDS (b :: rest)
  | _ => false

/-- Whether the string contains three consecutive slashes (`'///' in s`). -/
def hasTS : List Char → Bool
  | a :: b :: c :: rest => (a == '/' && b == '/' && c == '/') || hasTS (b :: c :: rest)
  | _ => false

/-- `re.sub(r'//', '/', s)`: replace every non-overlapping occurrence of two
consecutive slashes, scanning left to right, by a single slash. -/
def pySubDS : List Char → List Char
  | [] => []
  | [c] => [c]
  | a :: b :: rest =>
    if a = '/' ∧ b = '/' then '/' :: pySubDS rest
    else a :: pySubDS (b :: rest)

/-! ### `time.strptime` / `time.mktime` model

`Episode.date` tries the six fixed format strings
`%Y-%m-%d:%H:%M:%S`, `%Y-%m-%d:%H:%M`, `%Y-%m-%d:%H`, `%Y-%m-%d`, `%Y-%m`,
`%Y`.  CPython's `_strptime` compiles each directive to a regular expression:
`%Y ↦ \d\d\d\d`, `%m ↦ 1[0-2]|0[1-9]|[1-9]`, `%d ↦ 3[01]|[12]\d|0[1-9]|[1-9]`,
`%H ↦ 2[0-3]|[0-1]\d|\d`, `%M ↦ [0-5]\d|\d`, `%S ↦ 6[0-1]|[0-5]\d|\d`, and a
parse succeeds only if the whole input is consumed ("unconverted data
remains" otherwise).  In these six formats every numeric directive is followed
by a literal `'-'`/`':'` or the end of the string, so the regex backtracking
is equivalent to "take two digits when the two-digit value is admissible,
otherwise one" as implemented below. -/

/-- A parsed `struct_time` (the fields the six formats can set). -/
structure Tm where
  year : Nat
  mon : Nat
  mday : Nat
  hour : Nat
  min : Nat
  sec : Nat
deriving DecidableEq, Repr

/-- One directive of the supported format strings. -/
inductive Dir
  | year
  | mon
  | mday
  | hour
  | minute
  | sec
  | lit (c : Char)
deriving DecidableEq, Repr

/-- Numeric value of a decimal digit. -/
def digitVal (c : Char) : Option Nat :=
  if '0' ≤ c ∧ c ≤ '9' then some (c.toNat - 48) else none

/-- `%Y`: exactly four digits. -/
def parseY : List Char → Option (Nat × List Char)
  | a :: b :: c :: d :: rest =>
    match digitVal a, digitVal b, digitVal c, digitVal d with
    | some x, some y, some z, some w => some (1000 * x + 100 * y + 10 * z + w, rest)
    | _, _, _, _ => none
  | _ => none

/-- A one-or-two digit directive: take two digits when `two` admits the
two-digit value, else one digit when `one` admits it (see module docstring on
why this matches the regex semantics in the six fixed formats). -/
def parseNum (two : Nat → Bool) (one : Nat → Bool) : List Char → Option (Nat × List Char)
  | c1 :: c2 :: rest =>
    match digitVal c1, digitVal c2 with
    | some d1, some d2 =>
      if two (10 * d1 + d2) then some (10 * d1 + d2, rest)
      else if one d1 then some (d1, c2 :: rest)
      else none
    | some d1, none => if one d1 then some (d1, c2 :: rest) else none
    | none, _ => none
  | [c1] =>
    match digitVal c1 with
    | some d1 => if one d1 then some (d1, []) else none
    | none => none
  | [] => none

/-- Run a format (list of directives) over the input; the whole input must be
consumed.  Unset fields keep `strptime`'s defaults (1900-01-01 00:00:00). -/
def runFmt : List Dir → List Char → Tm → Option Tm
  | [], [], tm => some tm
  | [], _ :: _, _ => none
  | d :: ds, s, tm =>
    match d with
    | .year =>
      match parseY s with
      | some (v, r) => runFmt ds r { tm with year := v }
      | none => none
    | .mon =>
      match parseNum (fun v => 1 ≤ v ∧ v ≤ 12) (fun v => 1 ≤ v ∧ v ≤ 9) s with
      | some (v, r) => runFmt ds r { tm with mon := v }
      | none => none
    | .mday =>
      match parseNum (fun v => 1 ≤ v ∧ v ≤ 31) (fun v => 1 ≤ v ∧ v ≤ 9) s with
      | some (v, r) => runFmt ds r { tm with mday := v }
      | none => none
    | .hour =>
      match parseNum (fun v => v ≤ 23) (fun _ => true) s with
      | some (v, r) => runFmt ds r { tm with hour := v }
      | none => none
    | .minute =>
      match parseNum (fun v => v ≤ 59) (fun _ => true) s with
      | some (v, r) => runFmt ds r { tm with min := v }
      | none => none
    | .sec =>
      match parseNum (fun v => v ≤ 61) (fun _ => true) s with
      | some (v, r) => runFmt ds r { tm with sec := v }
      | none => none
    | .lit c =>
      match s with
      | c2 :: r => if c2 = c then runFmt ds r tm else none
      | [] => none

/-- `time.strptime(s, fmt)` restricted as above. -/
def strptime (fmt : List Dir) (s : List Char) : Option Tm :=
  runFmt fmt s ⟨1900, 1, 1, 0, 0, 0⟩

/-- The six format strings of `Episode.date`, most to least specific. -/
def dateFormats : List (List Dir) :=
  [ [.year, .lit '-', .mon, .lit '-', .mday, .lit ':', .hour, .lit ':', .minute, .lit ':', .sec]
  , [.year, .lit '-', .mon, .lit '-', .mday, .lit ':', .hour, .lit ':', .minute]
  , [.year, .lit '-', .mon, .lit '-', .mday, .lit ':', .hour]
  , [.year, .lit '-', .mon, .lit '-', .mday]
  , [.year, .lit '-', .mon]
  , [.year] ]

/-- The `for fmt in formats: try: ... break` loop: result of the first format
that parses, `none` when none does. -/
def strptimeFirst (s : List Char) : Option Tm :=
  dateFormats.findSome? (fun fmt => strptime fmt s)

/-- Days since the Unix epoch of a Gregorian calendar date (Julian day number
arithmetic; all divisions are on nonnegative numbers). -/
def daysFromCivil (y m d : Nat) : Nat :=
  let a := (14 - m) / 12
  let y2 := y + 4800 - a
  let m2 := m + 12 * a - 3
  d + (153 * m2 + 2) / 5 + 365 * y2 + y2 / 4 + y2 / 400 - y2 / 100 - 32045

/-- `time.mktime(t)` with the process timezone modelled by `tz` (seconds east
of UTC): the fields are interpreted as local time. -/
def mktime (tz : Int) (t : Tm) : Int :=
  ((daysFromCivil t.year t.mon t.mday : Int) - 2440588) * 86400
    + (t.hour * 3600 + t.min * 60 + t.sec : Nat) - tz

/-! ### Episode (local variant) -/

/-- The parse-and-fallback chain of `Episode.date` given the result of
`self.get_tag('date')` (`None` or a string; the empty string is falsy like
`None`): try the six formats in order breaking on the first success, and fall
back to `os.path.getmtime` (`mtime`) when there is no tag value, no format
matches, or the parsed value is falsy (`0.0`);
`if not dt: dt = os.path.getmtime(self.filename)`.  The tag lookup itself,
which can raise, is modelled by `Episode.get_tag` / `Episode.date_property`
below. -/
def Episode.date (dateTag : Option (List Char)) (mtime : Int) (tz : Int) : Int :=
  match dateTag with
  | none => mtime
  | some s =>
    if s = [] then mtime
    else
      match strptimeFirst s with
      | none => mtime
      | some st => if mktime tz st = 0 then mtime else mktime tz st

/-- The Python error conditions relevant to the tag and metadata lookups.
`metadataNotFound` is modelled from the spec: the distinguished
"metadata not found for asset" condition §7 asks for; the code never raises
it. -/
inductive PyErr
  | typeErrorNoneNotSubscriptable
  | keyError (k : List Char)
  | metadataNotFound
deriving DecidableEq, Repr

/-- `Episode.get_tag`: `return self.tags[name][0]`, catching only `KeyError`
and `IndexError` (absent key, empty value list — both yield `None`).  When
`mutagen.File` could not parse the file, `self.tags` is `None` (not a
mapping), and the subscript raises an uncaught `TypeError`.  `tags` is the
mutagen easy-tags mapping: tag name to ordered value list. -/
def Episode.get_tag (tags : Option (List (List Char × List (List Char))))
    (name : List Char) : Except PyErr (Option (List Char)) :=
  match tags with
  | none => .error .typeErrorNoneNotSubscriptable
  | some d =>
    match d.lookup name with
    | none => .ok none
    | some [] => .ok none
    | some (v :: _) => .ok (some v)

/-- The full `date` property access on a local episode: `get_tag('date')`
followed by the parse-and-fallback chain of `Episode.date`. -/
def Episode.date_property (tags : Option (List (List Char × List (List Char))))
    (mtime tz : Int) : Except PyErr Int :=
  match Episode.get_tag tags "date".data with
  | .error e => .error e
  | .ok dt => .ok (Episode.date dt mtime tz)

/-- The ID3 frames `Episode.title` consults: `id3.getall('TIT2')` and
`id3.getall('COMM')`, each an ordered list of frame strings. -/
structure Id3Tags where
  tit2 : List (List Char)
  comm : List (List Char)
deriving DecidableEq, Repr

/-- `Episode.title`: the base file name without extension, with the first
TIT2 frame appended and the first COMM frame appended after a space, when the
ID3 header could be read (`self.id3 = none` models `ID3()` having raised). -/
def Episode.title (filename : List Char) (id3 : Option Id3Tags) : List Char :=
  let text := splitextStem (pyBasename filename)
  match id3 with
  | none => text
  | some tg =>
    let text2 :=
      match tg.tit2 with
      | [] => text
      | v :: _ => text ++ v
    match tg.comm with
    | [] => text2
    | v :: _ => text2 ++ ' ' :: v

/-- The relevant rows of Python's built-in `mimetypes.types_map` (the standard
registry used by `mimetypes.guess_type`; `.m4b` has no entry there). -/
def typesMap : List (List Char × List Char) :=
  [ (".mp3".data, "audio/mpeg".data)
  , (".ogg".data, "audio/ogg".data)
  , (".wav".data, "audio/x-wav".data)
  , (".m4a".data, "audio/mp4".data)
  , (".mp4".data, "video/mp4".data)
  , (".png".data, "image/png".data)
  , (".jpg".data, "image/jpeg".data)
  , (".jpeg".data, "image/jpeg".data)
  , (".json".data, "application/json".data)
  , (".txt".data, "text/plain".data)
  , (".html".data, "text/html".data) ]

/-- `mimetypes.guess_type(p)[0]`: look up the extension in the registry,
trying it verbatim and then lowercased. -/
def guess_type (p : List Char) : Option (List Char) :=
  let ext := splitextExt (pyBasename p)
  match typesMap.lookup ext with
  | some v => some v
  | none => typesMap.lookup (ext.map Char.toLower)

/-- `Episode.mimetype`: filenames ending in `m4b` (no dot required by the
code) are special-cased, everything else uses `mimetypes.guess_type`. -/
def Episode.mimetype (filename : List Char) : Option (List Char) :=
  if "m4b".data.isSuffixOf filename then some "audio/x-m4b".data
  else guess_type filename

/-- `STATIC_PATH`. -/
def STATIC_PATH : List Char := "/static".data

/-- The path assembled inside `Episode._to_url` after the
`re.sub(r'//', '/', path)` collapse and before `pathname2url` quoting and the
root-URL prefix: `STATIC_PATH + '/' + relative_dir + '/' + basename`. -/
def Episode.to_url_path (relativeDir : List Char) (filepath : List Char) : List Char :=
  pySubDS (STATIC_PATH ++ '/' :: (relativeDir ++ '/' :: pyBasename filepath))

/-- `urllib.request.pathname2url` = `urllib.parse.quote` with `safe='/'`
(ASCII model): percent-encode everything outside alphanumerics, `_.-~`
and `/`. -/
def urlQuote (s : List Char) : List Char :=
  concatMap
    (fun c =>
      if c.isAlphanum || c ∈ ['_', '.', '-', '~', '/'] then [c]
      else
        let n := c.toNat
        let hex := fun m => if m < 10 then Char.ofNat (48 + m) else Char.ofNat (55 + m)
        ['%', hex (n / 16 % 16), hex (n % 16)])
    s

/-- `Episode._to_url`: root URL plus the quoted collapsed path. -/
def Episode.to_url (rootUrl relativeDir filepath : List Char) : List Char :=
  rootUrl ++ urlQuote (Episode.to_url_path relativeDir filepath)

/-! ### S3Episode (object-store variant) -/

/-- `S3Episode.get_tags`: the synthesized `date` tag, i.e. the first three
`'/'`-separated segments of the object key joined by `'-'`. -/
def S3Episode.get_tags (key : List Char) : List Char :=
  List.intercalate "-".data ((pySplit '/' key).take 3)

/-- `S3Episode.date` (the inherited `Episode.date` run on an `S3Episode`):
same tag-parsing chain, but the fallback `os.path.getmtime(self.filename)`
raises `TypeError` because `self.filename` is a boto3 object summary, not a
path — modelled as `none`. -/
def S3Episode.date (key : List Char) (tz : Int) : Option Int :=
  let s := S3Episode.get_tags key
  if s = [] then none
  else
    match strptimeFirst s with
    | none => none
    | some st => if mktime tz st = 0 then none else some (mktime tz st)

/-- `S3Episode.mimetype`: plain `mimetypes.guess_type` on the key, with no
`m4b` special case. -/
def S3Episode.mimetype (key : List Char) : Option (List Char) :=
  guess_type key

/-- One listed bucket object: its key and, when it is a JSON document, the
loaded key/value mapping (`json.load`). -/
structure S3Obj where
  key : List Char
  body : List (List Char × List Char)
deriving DecidableEq, Repr

/-- `S3Episode.s3_metadata`: scan the bucket objects under the prefix made of
the first three key segments; for every object whose key ends in `json` and
whose loaded values contain this episode's file name, remember its body (the
loop does not break, so the last match wins); `None` when nothing matched. -/
def S3Episode.s3_metadata (bucket : List S3Obj) (key : List Char) :
    Option (List (List Char × List Char)) :=
  let parts := pySplit '/' key
  let pre := List.intercalate "/".data (parts.take 3)
  let lastPart := parts.getLastD []
  (bucket.filter (fun o => pre.isPrefixOf o.key)).foldl
    (fun acc o =>
      if "json".data.isSuffixOf o.key ∧ lastPart ∈ o.body.map Prod.snd then some o.body
      else acc)
    none

/-- `S3Episode.title`: `self.s3_metadata['Recording Title']`.  When
`s3_metadata` is `None` this is `None[...]`, a raw `TypeError`. -/
def S3Episode.title (md : Option (List (List Char × List Char))) :
    Except PyErr (List Char) :=
  match md with
  | none => .error .typeErrorNoneNotSubscriptable
  | some m =>
    match m.lookup "Recording Title".data with
    | some v => .ok v
    | none => .error (.keyError "Recording Title".data)

/-- `S3Episode.description`: `self.s3_metadata['Description']`. -/
def S3Episode.description (md : Option (List (List Char × List Char))) :
    Except PyErr (List Char) :=
  match md with
  | none => .error .typeErrorNoneNotSubscriptable
  | some m =>
    match m.lookup "Description".data with
    | some v => .ok v
    | none => .error (.keyError "Description".data)

/-- `S3Episode.speaker`: `self.s3_metadata['Speaker']`. -/
def S3Episode.speaker (md : Option (List (List Char × List Char))) :
    Except PyErr (List Char) :=
  match md with
  | none => .error .typeErrorNoneNotSubscriptable
  | some m =>
    match m.lookup "Speaker".data with
    | some v => .ok v
    | none => .error (.keyError "Speaker".data)

/-! ### Channel -/

/-- `Channel._is_s3`: `all(i in root_dir for i in ['s3', 'amazonaws.com'])`. -/
def Channel.is_s3 (root : List Char) : Bool :=
  ["s3".data, "amazonaws.com".data].all (fun i => isSubstr i root)

/-- Which source variant `Channel.__iter__` dispatches to. -/
inductive SourceKind
  | localFS
  | objectStore
deriving DecidableEq, Repr

/-- The branch taken by `Channel.__iter__`. -/
def Channel.sourceKind (root : List Char) : SourceKind :=
  if Channel.is_s3 root then .objectStore else .localFS

/-- `Channel._iter_s3`: of the object keys listed under the bucket prefix,
only those ending in `mp3` yield an `S3Episode`
(`if obj.key.endswith('mp3')`). -/
def Channel.iter_s3_keys (listed : List (List Char)) : List (List Char) :=
  listed.filter (fun k => "mp3".data.isSuffixOf k)

/-- The per-episode state `sorted(self)` depends on: the `date` tag value and
the file's last-modified time (a local episode; `Episode.date` is a pure
function of these and the process timezone). -/
structure LocalEp where
  dateTag : Option (List Char)
  mtime : Int
deriving DecidableEq, Repr

/-- The date of a local episode. -/
def LocalEp.dateVal (tz : Int) (e : LocalEp) : Int :=
  Episode.date e.dateTag e.mtime tz

/-- `sorted(self)` in `Channel.as_xml` / `Channel.as_html`: Python's stable
sort driven by `Episode.__lt__`, i.e. the stable sort by ascending `date`
(insertion sort is stable, so it computes the same list). -/
def Channel.sortedEpisodes (tz : Int) (eps : List LocalEp) : List LocalEp :=
  List.insertionSort (fun a b => a.dateVal tz ≤ b.dateVal tz) eps

/-- `u''.join(episode.as_xml() for episode in sorted(self))`, with the
template rendering of one episode kept opaque as `render`. -/
def Channel.itemsXml (render : LocalEp → List Char) (tz : Int) (eps : List LocalEp) :
    List Char :=
  concatMap render (Channel.sortedEpisodes tz eps)

/-! ### XML escaping (`xml.sax.saxutils`) -/

/-- `xml.sax.saxutils.escape`: replace `&` first, then `>`, then `<`. -/
def xmlEscape (s : List Char) : List Char :=
  rep '<' "&lt;".data (rep '>' "&gt;".data (rep '&' "&amp;".data s))

/-- The double-quote character. -/
def dquote : Char := Char.ofNat 34

/-- The single-quote character. -/
def squote : Char := Char.ofNat 39

/-- `xml.sax.saxutils.quoteattr`: escape plus the `\n`, `\r`, `\t` entities,
then wrap in quotes, preferring double quotes. -/
def quoteattr (s : List Char) : List Char :=
  let e := rep (Char.ofNat 9) "&#9;".data
    (rep (Char.ofNat 13) "&#13;".data (rep (Char.ofNat 10) "&#10;".data (xmlEscape s)))
  if dquote ∈ e then
    if squote ∈ e then dquote :: rep dquote "&quot;".data e ++ [dquote]
    else squote :: e ++ [squote]
  else dquote :: e ++ [dquote]

/-- The resolved per-episode values `Episode.as_xml` starts from (each
property computed to a string; `length`/`date` kept as numbers since
escaping is not at issue for them). -/
structure RawItemFields where
  title : List Char
  url : List Char
  mimetype : Option (List Char)
  length : Int
  date : Int
  image : Option (List Char)
  speaker : List Char
  description : List Char
deriving DecidableEq, Repr

/-- The keyword arguments `Episode.as_xml` passes to
`template.render(...)`. -/
structure ItemArgs where
  title : List Char
  url : List Char
  guid : List Char
  mimetype : Option (List Char)
  length : Int
  date : Int
  image_url : Option (List Char)
  speaker : List Char
  description : List Char
deriving DecidableEq, Repr

/-- `Episode.as_xml`: which transformation each field goes through before
being handed to the template — `escape` for title/guid/speaker/description,
`quoteattr` for url, and none for mimetype, length, date and image_url. -/
def Episode.as_xml_args (f : RawItemFields) : ItemArgs :=
  { title := xmlEscape f.title
    url := quoteattr f.url
    guid := xmlEscape f.url
    mimetype := f.mimetype
    length := f.length
    date := f.date
    image_url := f.image
    speaker := xmlEscape f.speaker
    description := xmlEscape f.description }

/-- The keyword arguments `Channel.as_xml` passes to the feed template. -/
structure FeedArgs where
  title : List Char
  description : List Char
  link : List Char
  items : List Char
deriving DecidableEq, Repr

/-- `Channel.as_xml`: feed-level fields are `escape`d, the concatenated items
string is passed through as-is. -/
def Channel.as_xml_args (title description link items : List Char) : FeedArgs :=
  { title := xmlEscape title
    description := xmlEscape description
    link := xmlEscape link
    items := items }

/-! ### Helper lemmas -/

theorem mem_concatMap {α β} {f : α → List β} {b : β} (l : List α) :
    b ∈ concatMap f l ↔ ∃ x ∈ l, b ∈ f x := by
  induction l with
  | nil => simp [concatMap]
  | cons x xs ih => simp [concatMap, List.mem_append, ih]

theorem mem_rep {c : Char} {r : List Char} {l : List Char} {a : Char}
    (h : a ∈ rep c r l) : a ∈ r ∨ (a ∈ l ∧ a ≠ c) := by
  rcases (mem_concatMap l).1 h with ⟨x, hx, hm⟩
  by_cases hxc : x = c
  · rw [if_pos hxc] at hm
    exact Or.inl hm
  · rw [if_neg hxc] at hm
    rcases List.mem_singleton.1 hm with rfl
    exact Or.inr ⟨hx, hxc⟩

theorem xmlEscape_no_lt (s : List Char) : '<' ∉ xmlEscape s := by
  intro h
  unfold xmlEscape at h
  rcases mem_rep h with h1 | ⟨_, hne⟩
  · exact absurd h1 (by decide)
  · exact hne rfl

theorem xmlEscape_no_gt (s : List Char) : '>' ∉ xmlEscape s := by
  intro h
  unfold xmlEscape at h
  rcases mem_rep h with h1 | ⟨h2, _⟩
  · exact absurd h1 (by decide)
  · rcases mem_rep h2 with h3 | ⟨_, hne⟩
    · exact absurd h3 (by decide)
    · exact hne rfl

theorem hasDS_cons_cons (a b : Char) (l : List Char) :
    hasDS (a :: b :: l) = ((a == '/' && b == '/') || hasDS (b :: l)) := rfl

theorem hasTS_cons_cons_cons (a b c : Char) (l : List Char) :
    hasTS (a :: b :: c :: l) = ((a == '/' && b == '/' && c == '/') || hasTS (b :: c :: l)) :=
  rfl

theorem hasTS_tail (x : Char) (l : List Char) (h : hasTS (x :: l) = false) :
    hasTS l = false := by
  cases l with
  | nil => rfl
  | cons y t =>
    cases t with
    | nil => rfl
    | cons z u =>
      rw [hasTS_cons_cons_cons] at h
      exact (Bool.or_eq_false_iff.1 h).2

theorem hasTS_of_no_slash_tail (a b : Char) (l : List Char) (h : ∀ x ∈ l, x ≠ '/') :
    hasTS (a :: b :: l) = false := by
  induction l generalizing a b with
  | nil => rfl
  | cons c t ih =>
    rw [hasTS_cons_cons_cons]
    have hc : (c == '/') = false := by
      simpa using h c (by simp)
    simp [hc, ih b c (fun x hx => h x (by simp [hx]))]

theorem hasTS_append_slash : ∀ (rd : List Char), hasDS rd = false →
    ∀ (fn : List Char), (∀ x ∈ fn, x ≠ '/') → hasTS (rd ++ '/' :: fn) = false
  | [], _, fn, hfn => by
    cases fn with
    | nil => rfl
    | cons f fs =>
      exact hasTS_of_no_slash_tail '/' f fs (fun x hx => hfn x (by simp [hx]))
  | [x], _, fn, hfn => hasTS_of_no_slash_tail x '/' fn hfn
  | a :: b :: t, h, fn, hfn => by
    rw [hasDS_cons_cons] at h
    rcases Bool.or_eq_false_iff.1 h with ⟨h1, h2⟩
    cases t with
    | nil =>
      rw [show (([a, b] : List Char) ++ '/' :: fn) = a :: b :: '/' :: fn from rfl,
        hasTS_cons_cons_cons, Bool.or_eq_false_iff]
      exact ⟨by rw [Bool.and_eq_false_iff]; exact Or.inl h1,
        hasTS_of_no_slash_tail b '/' fn hfn⟩
    | cons c u =>
      rw [show ((a :: b :: c :: u) ++ '/' :: fn) = a :: b :: c :: (u ++ '/' :: fn) from rfl,
        hasTS_cons_cons_cons, Bool.or_eq_false_iff]
      refine ⟨by rw [Bool.and_eq_false_iff]; exact Or.inl h1, ?_⟩
      have htail : hasTS ((b :: c :: u) ++ '/' :: fn) = false :=
        hasTS_append_slash (b :: c :: u) h2 fn hfn
      simpa using htail

theorem hasTS_cons (c : Char) (l : List Char) (h1 : hasTS l = false)
    (h2 : ∀ a b t, l = a :: b :: t → ¬(a = '/' ∧ b = '/')) :
    hasTS (c :: l) = false := by
  cases l with
  | nil => rfl
  | cons a t =>
    cases t with
    | nil => rfl
    | cons b u =>
      rw [hasTS_cons_cons_cons]
      have hab := h2 a b u rfl
      by_cases ha : a = '/'
      · have hb : (b == '/') = false := by
          simp only [beq_eq_false_iff_ne, ne_eq]
          exact fun hb => hab ⟨ha, hb⟩
        simp [hb, h1]
      · simp [ha, h1]

theorem pySubDS_head (b : Char) (l : List Char) :
    (pySubDS (b :: l)).head? = some b := by
  cases l with
  | nil => rfl
  | cons c t =>
    by_cases h : b = '/' ∧ c = '/'
    · obtain ⟨rfl, rfl⟩ := h
      rfl
    · simp only [pySubDS, if_neg h, List.head?_cons]

theorem hasDS_cons' (c : Char) (X : List Char) (h1 : hasDS X = false)
    (h2 : ¬(c = '/' ∧ X.head? = some '/')) : hasDS (c :: X) = false := by
  cases X with
  | nil => rfl
  | cons x xs =>
    rw [hasDS_cons_cons]
    have hcx : (c == '/' && x == '/') = false := by
      rw [Bool.and_eq_false_iff]
      by_cases hc : c = '/'
      · refine Or.inr ?_
        simp only [beq_eq_false_iff_ne, ne_eq]
        exact fun hx => h2 ⟨hc, by simp [hx]⟩
      · exact Or.inl (by simpa using hc)
    simp [hcx, h1]

theorem hasDS_pySubDS : ∀ l : List Char, hasTS l = false → hasDS (pySubDS l) = false
  | [], _ => rfl
  | [_], _ => rfl
  | a :: b :: rest, h => by
    by_cases hab : a = '/' ∧ b = '/'
    · obtain ⟨rfl, rfl⟩ := hab
      rw [show pySubDS ('/' :: '/' :: rest) = '/' :: pySubDS rest from rfl]
      apply hasDS_cons'
      · exact hasDS_pySubDS rest (hasTS_tail _ _ (hasTS_tail _ _ h))
      · rintro ⟨-, hh⟩
        cases rest with
        | nil => exact Option.noConfusion hh
        | cons r rs =>
          rw [pySubDS_head] at hh
          obtain rfl : r = '/' := by simpa using hh
          rw [hasTS_cons_cons_cons] at h
          simp at h
    · simp only [pySubDS, if_neg hab]
      apply hasDS_cons'
      · exact hasDS_pySubDS (b :: rest) (hasTS_tail _ _ h)
      · rintro ⟨rfl, hh⟩
        rw [pySubDS_head] at hh
        exact hab ⟨rfl, by simpa using hh⟩

theorem mp3_suffix_not_m4b (k : List Char) (h : "mp3".data.isSuffixOf k = true) :
    "m4b".data.isSuffixOf k = false := by
  by_contra hcon
  rw [Bool.not_eq_false] at hcon
  obtain ⟨t1, ht1⟩ := List.isSuffixOf_iff_suffix.1 h
  obtain ⟨t2, ht2⟩ := List.isSuffixOf_iff_suffix.1 hcon
  rw [← ht1] at ht2
  have hlen : t2.length = t1.length := by
    have hl := congrArg List.length ht2
    rw [List.length_append, List.length_append,
      show ("m4b".data).length = 3 from rfl, show ("mp3".data).length = 3 from rfl] at hl
    omega
  obtain ⟨-, h2⟩ := List.append_inj ht2 hlen
  exact absurd h2 (by decide)

theorem hasDS_append : ∀ (xs : List Char), hasDS xs = false → ∀ (ys : List Char),
    hasDS ys = false → (xs.getLast? ≠ some '/' ∨ ys.head? ≠ some '/') →
    hasDS (xs ++ ys) = false
  | [], _, ys, hys, _ => hys
  | [x], _, ys, hys, hb => by
    cases ys with
    | nil => rfl
    | cons y yt =>
      rw [List.singleton_append, hasDS_cons_cons]
      have hxy : (x == '/' && y == '/') = false := by
        rcases hb with hb | hb
        · have : x ≠ '/' := by simpa using hb
          simp [this]
        · have : y ≠ '/' := by simpa using hb
          simp [this]
      simp [hxy, hys]
  | a :: b :: t, h, ys, hys, hb => by
    rw [hasDS_cons_cons] at h
    rcases Bool.or_eq_false_iff.1 h with ⟨h1, h2⟩
    rw [List.cons_append, List.cons_append, hasDS_cons_cons]
    have htail : hasDS ((b :: t) ++ ys) = false :=
      hasDS_append (b :: t) h2 ys hys
        (by
          rcases hb with hb | hb
          · exact Or.inl (by rwa [List.getLast?_cons_cons] at hb)
          · exact Or.inr hb)
    simp only [List.cons_append] at htail
    simp [h1, htail]

theorem pySubDS_append : ∀ (xs : List Char), hasDS xs = false →
    xs.getLast? ≠ some '/' → ∀ (ys : List Char),
    pySubDS (xs ++ ys) = xs ++ pySubDS ys
  | [], _, _, _ => by simp
  | [x], _, hlast, ys => by
    cases ys with
    | nil => rfl
    | cons y yt =>
      have hx : ¬(x = '/' ∧ y = '/') := by
        intro ⟨hx', _⟩
        exact hlast (by simp [hx'])
      simp only [List.singleton_append, pySubDS, if_neg hx]
  | a :: b :: t, h, hlast, ys => by
    rw [hasDS_cons_cons] at h
    rcases Bool.or_eq_false_iff.1 h with ⟨h1, h2⟩
    have h1' : ¬(a = '/' ∧ b = '/') := by
      rintro ⟨rfl, rfl⟩
      simp at h1
    rw [List.cons_append, List.cons_append]
    simp only [pySubDS, if_neg h1']
    rw [← List.cons_append,
      pySubDS_append (b :: t) h2 (by rwa [List.getLast?_cons_cons] at hlast) ys]
    simp

theorem pyBasename_no_slash : ∀ (p : List Char), ∀ x ∈ pyBasename p, x ≠ '/'
  | [] => by simp [pyBasename]
  | c :: cs => by
    by_cases h1 : c = '/'
    · simpa [pyBasename, h1] using pyBasename_no_slash cs
    · by_cases h2 : hasSlash cs
      · simpa [pyBasename, h1, h2] using pyBasename_no_slash cs
      · intro x hx
        simp only [pyBasename, if_neg h1, if_neg h2] at hx
        rcases List.mem_cons.1 hx with rfl | hx
        · exact h1
        · intro hxe
          subst hxe
          exact h2 (List.any_eq_true.2 ⟨'/', hx, by simp⟩)

theorem splitextStem_ne_nil (b : List Char) (hb : b ≠ []) : splitextStem b ≠ [] := by
  unfold splitextStem
  cases h : rfindDot b with
  | none => exact hb
  | some i =>
    by_cases h2 : (b.take i).any (fun c => c ≠ '.')
    · simp only [h2, if_true]
      rcases List.any_eq_true.1 h2 with ⟨x, hx, _⟩
      exact List.ne_nil_of_mem hx
    · simp only [h2, if_false]
      exact hb

theorem findSome?_of_first {α β} (f : α → Option β) (d : α) :
    ∀ (l : List α) (i : Nat) (b : β), i < l.length →
      f (l.getD i d) = some b → (∀ j, j < i → f (l.getD j d) = none) →
      l.findSome? f = some b
  | [], i, b, h, _, _ => absurd h (by simp)
  | x :: xs, 0, b, _, hf, _ => by
    have hx : f x = some b := by simpa using hf
    simp [List.findSome?_cons, hx]
  | x :: xs, i + 1, b, h, hf, hj => by
    have h0 : f x = none := by simpa using hj 0 (Nat.succ_pos i)
    have hrest : xs.findSome? f = some b :=
      findSome?_of_first f d xs i b (by simpa using h) (by simpa using hf)
        (fun j hji => by simpa using hj (j + 1) (Nat.succ_lt_succ hji))
    simp [List.findSome?_cons, h0, hrest]

/-! ### Claims -/

/-- Claim C1: `Channel.as_xml` / `Channel.as_html` render the episodes from
`sorted(self)`: the concatenated items string is the concatenation of the
rendered episodes of the sorted list, the dates along that list are
monotonically non-decreasing, and the sorted list is a permutation of the
episodes in whatever order the source yielded them. -/
theorem feed_items_sorted_by_date (tz : Int) (render : LocalEp → List Char)
    (eps : List LocalEp) :
    Channel.itemsXml render tz eps = concatMap render (Channel.sortedEpisodes tz eps)
    ∧ List.Pairwise (fun a b => a.dateVal tz ≤ b.dateVal tz) (Channel.sortedEpisodes tz eps)
    ∧ (Channel.sortedEpisodes tz eps).Perm eps := by
  refine ⟨rfl, ?_, List.perm_insertionSort _ _⟩
  haveI : IsTotal LocalEp (fun a b => a.dateVal tz ≤ b.dateVal tz) :=
    ⟨fun a b => Int.le_total _ _⟩
  haveI : IsTrans LocalEp (fun a b => a.dateVal tz ≤ b.dateVal tz) :=
    ⟨fun _ _ _ hab hbc => Int.le_trans hab hbc⟩
  exact List.sorted_insertionSort _ eps

/-- Claim C2 counterexample: (a) for an object-store key whose first three
segments do not form a date, the synthesized tag parses under no format and
the last-modified fallback raises (`os.path.getmtime` on a boto3 object
summary), so the `date` access fails; (b) for a local file mutagen cannot
parse (`mutagen.File` returns `None`, e.g. an `.au` file the walk yields),
`self.tags['date']` raises an uncaught `TypeError`, since `get_tag` catches
only `KeyError`/`IndexError`.  Both refute "accessing the date property never
raises". -/
theorem s3_date_raises_counterexample :
    S3Episode.get_tags "music/episode.mp3".data = "music-episode.mp3".data
    ∧ strptimeFirst "music-episode.mp3".data = none
    ∧ S3Episode.date "music/episode.mp3".data 0 = none
    ∧ Episode.date_property none 42 0 = .error .typeErrorNoneNotSubscriptable :=
  ⟨by decide, by decide, by decide, rfl⟩

/-- Claim C2 (amended): a local `date` access raises exactly when mutagen
produced no tag mapping for the file; given any tag mapping it returns a
value — the tag-derived timestamp or the last-modified fallback — while the
object-store variant yields a value exactly when its synthesized tag is
non-empty and parses under one of the formats to a nonzero timestamp;
otherwise the date access raises. -/
theorem date_resolution_totality :
    (∀ (mtime tz : Int),
        Episode.date_property none mtime tz = .error .typeErrorNoneNotSubscriptable)
    ∧ (∀ (d : List (List Char × List (List Char))) (mtime tz : Int),
        Episode.date_property (some d) mtime tz
          = .ok (Episode.date ((d.lookup "date".data).bind List.head?) mtime tz))
    ∧ (∀ (tag : Option (List Char)) (mtime tz : Int),
        Episode.date tag mtime tz = mtime ∨
          ∃ st, strptimeFirst (tag.getD []) = some st ∧
            Episode.date tag mtime tz = mktime tz st)
    ∧ (∀ (key : List Char) (tz : Int),
        (S3Episode.date key tz).isSome = true ↔
          (S3Episode.get_tags key ≠ [] ∧
            ∃ st, strptimeFirst (S3Episode.get_tags key) = some st ∧
              mktime tz st ≠ 0)) := by
  refine ⟨fun _ _ => rfl, ?_, ?_, ?_⟩
  · intro d mtime tz
    cases hl : d.lookup "date".data with
    | none => simp [Episode.date_property, Episode.get_tag, hl]
    | some vs =>
      cases vs <;> simp [Episode.date_property, Episode.get_tag, hl]
  · intro tag mtime tz
    cases tag with
    | none => exact Or.inl rfl
    | some s =>
      by_cases hs : s = []
      · subst hs
        exact Or.inl (by simp [Episode.date])
      · cases hp : strptimeFirst s with
        | none => exact Or.inl (by simp [Episode.date, hs, hp])
        | some st =>
          by_cases hz : mktime tz st = 0
          · exact Or.inl (by simp [Episode.date, hs, hp, hz])
          · exact Or.inr ⟨st, by simpa using hp, by simp [Episode.date, hs, hp, hz]⟩
  · intro key tz
    unfold S3Episode.date
    by_cases hs : S3Episode.get_tags key = []
    · simp [hs]
    · cases hp : strptimeFirst (S3Episode.get_tags key) with
      | none => simp [hs, hp]
      | some st =>
        by_cases hz : mktime tz st = 0
        · simp [hs, hp, hz]
        · simp [hs, hp, hz]

/-- Claim C2 witness: a local file with a parseable tag mapping resolves to
the tag timestamp, and a conventional `YYYY/MM/DD/name.mp3` key resolves. -/
theorem date_resolution_totality_witness :
    Episode.date_property (some [("date".data, ["2021-03-15".data])]) 7 0
      = .ok 1615766400
    ∧ (S3Episode.date "2021/03/15/episode.mp3".data 0).isSome = true :=
  ⟨Eq.trans (date_resolution_totality.2.1 [("date".data, ["2021-03-15".data])] 7 0) rfl,
    (date_resolution_totality.2.2.2 "2021/03/15/episode.mp3".data 0).mpr
      ⟨by decide, ⟨2021, 3, 15, 0, 0, 0⟩, by decide, by decide⟩⟩

/-- Claim C3 counterexample: with the process timezone at UTC, the tag
`1970-01-01:00:00:00` parses under the very first format to the timestamp 0,
yet `Episode.date` returns the last-modified time (here 100), because the
parsed value is falsy — so the first pattern that parses does not determine
the result. -/
theorem date_epoch_counterexample :
    strptimeFirst "1970-01-01:00:00:00".data = some ⟨1970, 1, 1, 0, 0, 0⟩
    ∧ mktime 0 ⟨1970, 1, 1, 0, 0, 0⟩ = 0
    ∧ Episode.date (some "1970-01-01:00:00:00".data) 100 0 = 100
    ∧ (100 : Int) ≠ 0 :=
  ⟨by decide, by decide, by decide, by decide⟩

/-- Claim C3 (amended): the six formats are tried in their fixed order and the
first one that parses determines the parsed struct (no later pattern is
consulted); the parsed timestamp is the result unless it equals 0, in which
case — as when there is no tag value, the tag is empty, or no pattern
matches — the result is the file's last-modified time. -/
theorem date_resolution_order :
    (∀ (mtime tz : Int), Episode.date none mtime tz = mtime)
    ∧ (∀ (mtime tz : Int), Episode.date (some []) mtime tz = mtime)
    ∧ (∀ (s : List Char) (mtime tz : Int), strptimeFirst s = none →
        Episode.date (some s) mtime tz = mtime)
    ∧ (∀ (s : List Char) (mtime tz : Int) (st : Tm), strptimeFirst s = some st →
        mktime tz st ≠ 0 → Episode.date (some s) mtime tz = mktime tz st)
    ∧ (∀ (s : List Char) (i : Nat) (st : Tm), i < dateFormats.length →
        strptime (dateFormats.getD i []) s = some st →
        (∀ j, j < i → strptime (dateFormats.getD j []) s = none) →
        strptimeFirst s = some st) := by
  refine ⟨fun _ _ => rfl, fun mtime tz => by simp [Episode.date], ?_, ?_, ?_⟩
  · intro s mtime tz hp
    by_cases hs : s = []
    · subst hs
      simp [Episode.date]
    · simp [Episode.date, hs, hp]
  · intro s mtime tz st hp hz
    have hs : s ≠ [] := by
      rintro rfl
      rw [show strptimeFirst [] = none from by decide] at hp
      exact Option.noConfusion hp
    simp [Episode.date, hs, hp, hz]
  · intro s i st hi hp hj
    exact findSome?_of_first (fun fmt => strptime fmt s) [] dateFormats i st hi hp hj

/-- Claim C3 witness: `2021-03` matches the fifth format (index 4) after the
four more specific ones fail, and its nonzero timestamp is the result. -/
theorem date_resolution_order_witness :
    strptimeFirst "2021-03".data = some ⟨2021, 3, 1, 0, 0, 0⟩
    ∧ mktime 0 ⟨2021, 3, 1, 0, 0, 0⟩ ≠ 0
    ∧ Episode.date (some "2021-03".data) 7 0 = mktime 0 ⟨2021, 3, 1, 0, 0, 0⟩
    ∧ strptime (dateFormats.getD 4 []) "2021-03".data = some ⟨2021, 3, 1, 0, 0, 0⟩ :=
  ⟨date_resolution_order.2.2.2.2 "2021-03".data 4 ⟨2021, 3, 1, 0, 0, 0⟩ (by decide)
      (by decide) (fun j hj => by interval_cases j <;> decide),
    by decide,
    date_resolution_order.2.2.2.1 "2021-03".data 7 0 ⟨2021, 3, 1, 0, 0, 0⟩
      (by decide) (by decide),
    by decide⟩

/-- Claim C4: with no companion JSON object under the asset's prefix,
`s3_metadata` is `None` and `S3Episode.title` subscripts it — a raw
`TypeError`, not the distinguished "metadata not found for asset" condition
the spec requires (the spec itself flags this unguarded lookup as a defect). -/
theorem s3_title_missing_metadata_raw_error :
    S3Episode.s3_metadata [] "2021/03/15/episode.mp3".data = none
    ∧ S3Episode.title (S3Episode.s3_metadata [] "2021/03/15/episode.mp3".data)
        = .error .typeErrorNoneNotSubscriptable
    ∧ PyErr.typeErrorNoneNotSubscriptable ≠ PyErr.metadataNotFound :=
  ⟨rfl, rfl, by decide⟩

/-- Claim C5: for every episode whose relative directory contains no doubled
slash and is not the bare slash string — which covers every shape either
iterator produces: the empty directory, `'/'`-prefixed local subdirectories
such as `/sub/deeper`, slash-free directories such as `usr/share` from a walk
rooted at `/`, and object-store key directories such as `2021/03/15` — and
every file path, the collapsed path assembled by `Episode._to_url` contains
no `//` before quoting and the root URL prefix. -/
theorem to_url_no_double_slash (rd fp : List Char)
    (h1 : hasDS rd = false) (h2 : rd ≠ ['/']) :
    hasDS (Episode.to_url_path rd fp) = false := by
  have hfn := pyBasename_no_slash fp
  unfold Episode.to_url_path
  rw [pySubDS_append STATIC_PATH (by decide) (by decide)]
  apply hasDS_append STATIC_PATH (by decide) _ _ (Or.inl (by decide))
  apply hasDS_pySubDS
  apply hasTS_cons
  · exact hasTS_append_slash rd h1 (pyBasename fp) hfn
  · intro a b t hab
    rintro ⟨rfl, rfl⟩
    cases rd with
    | nil =>
      rw [List.nil_append] at hab
      injection hab with hx hy
      exact hfn '/' (by rw [hy]; simp) rfl
    | cons c rdt =>
      rw [List.cons_append] at hab
      injection hab with hc hab2
      subst hc
      cases rdt with
      | nil => exact h2 rfl
      | cons c2 rdt2 =>
        rw [List.cons_append] at hab2
        injection hab2 with hc2 _
        subst hc2
        rw [hasDS_cons_cons] at h1
        simp at h1

/-- Claim C5 witness: an object-store style relative directory. -/
theorem to_url_no_double_slash_witness :
    (hasDS "2021/03/15".data = false ∧ "2021/03/15".data ≠ ['/'])
    ∧ hasDS (Episode.to_url_path "2021/03/15".data "2021/03/15/episode.mp3".data) = false :=
  ⟨⟨by decide, by decide⟩,
    to_url_no_double_slash "2021/03/15".data "2021/03/15/episode.mp3".data
      (by decide) (by decide)⟩

/-- Claim C6 counterexample: (a) an object-store episode whose companion JSON
maps `Recording Title` to the empty string has an empty title (no fallback to
the key base name exists), and (b) a local file carrying no title tag but a
comment frame gets the comment appended, so its title is not the bare base
name. -/
theorem title_counterexample :
    S3Episode.title (some [("Recording Title".data, [])]) = .ok []
    ∧ Episode.title "/d/ep.mp3".data (some ⟨[], ["hi".data]⟩) = "ep hi".data
    ∧ "ep hi".data ≠ "ep".data
    ∧ splitextStem (pyBasename "/d/ep.mp3".data) = "ep".data :=
  ⟨rfl, by decide, by decide, by decide⟩

/-- Claim C6 (amended): a local episode with no readable ID3 header, or with
neither a TIT2 nor a COMM frame, has the base file name without extension as
its title; a local episode with a non-empty base file name never has an empty
title; an object-store title is exactly the companion JSON's
`Recording Title` value — which may be empty — with no base-name fallback of
any kind: a mapping without that key raises `KeyError` and a missing mapping
raises `TypeError`. -/
theorem title_resolution (f : List Char) (tg : Id3Tags)
    (md : List (List Char × List Char)) (v : List Char)
    (hb : pyBasename f ≠ []) :
    Episode.title f none = splitextStem (pyBasename f)
    ∧ (tg.tit2 = [] → tg.comm = [] → Episode.title f (some tg) = splitextStem (pyBasename f))
    ∧ (∀ tg2 : Option Id3Tags, Episode.title f tg2 ≠ [])
    ∧ (md.lookup "Recording Title".data = some v → S3Episode.title (some md) = .ok v)
    ∧ (md.lookup "Recording Title".data = none →
        S3Episode.title (some md) = .error (.keyError "Recording Title".data))
    ∧ S3Episode.title none = .error .typeErrorNoneNotSubscriptable := by
  have hstem := splitextStem_ne_nil _ hb
  refine ⟨rfl, ?_, ?_, ?_, ?_, rfl⟩
  · rcases tg with ⟨t2, cm⟩
    intro h1 h2
    simp only at h1 h2
    subst h1
    subst h2
    rfl
  · intro tg2
    cases tg2 with
    | none => exact hstem
    | some tg3 =>
      rcases tg3 with ⟨_ | _, _ | _⟩ <;>
        simp [Episode.title, hstem]
  · intro h
    simp [S3Episode.title, h]
  · intro h
    simp [S3Episode.title, h]

/-- Claim C6 witness. -/
theorem title_resolution_witness :
    pyBasename "/dir/ep.mp3".data ≠ []
    ∧ Episode.title "/dir/ep.mp3".data none = splitextStem (pyBasename "/dir/ep.mp3".data)
    ∧ Episode.title "/dir/ep.mp3".data (some ⟨[], []⟩) ≠ []
    ∧ S3Episode.title (some [("Recording Title".data, "X".data)]) = .ok "X".data :=
  ⟨by decide,
    (title_resolution "/dir/ep.mp3".data ⟨[], []⟩ [("Recording Title".data, "X".data)]
      "X".data (by decide)).1,
    (title_resolution "/dir/ep.mp3".data ⟨[], []⟩ [("Recording Title".data, "X".data)]
      "X".data (by decide)).2.2.1 (some ⟨[], []⟩),
    (title_resolution "/dir/ep.mp3".data ⟨[], []⟩ [("Recording Title".data, "X".data)]
      "X".data (by decide)).2.2.2.1 (by decide)⟩

/-- Claim C7: a local asset whose filename ends in `m4b` always reports the
fixed `audio/x-m4b` regardless of standard inference; every other local
asset reports the standard inference; and every object-store asset the
program produces — `_iter_s3` yields only keys ending in `mp3`, which
therefore never end in `m4b` — reports the standard inference, so the
`m4b` clause is never exercised on the object-store variant
(`S3Episode.mimetype` has no such branch). -/
theorem mimetype_resolution (f : List Char) (listed : List (List Char))
    (k : List Char) (hk : k ∈ Channel.iter_s3_keys listed) :
    ("m4b".data.isSuffixOf f = true → Episode.mimetype f = some "audio/x-m4b".data)
    ∧ ("m4b".data.isSuffixOf f = false → Episode.mimetype f = guess_type f)
    ∧ "m4b".data.isSuffixOf k = false
    ∧ S3Episode.mimetype k = guess_type k := by
  have hmp3 : "mp3".data.isSuffixOf k = true :=
    (List.mem_filter.1 hk).2
  exact ⟨fun h => by simp [Episode.mimetype, h],
    fun h => by simp [Episode.mimetype, h],
    mp3_suffix_not_m4b k hmp3,
    rfl⟩

/-- Claim C7 witness. -/
theorem mimetype_resolution_witness :
    "2021/03/15/episode.mp3".data ∈ Channel.iter_s3_keys ["2021/03/15/episode.mp3".data]
    ∧ Episode.mimetype "book.m4b".data = some "audio/x-m4b".data
    ∧ Episode.mimetype "song.mp3".data = guess_type "song.mp3".data
    ∧ "m4b".data.isSuffixOf "2021/03/15/episode.mp3".data = false
    ∧ S3Episode.mimetype "2021/03/15/episode.mp3".data
        = guess_type "2021/03/15/episode.mp3".data :=
  ⟨by decide,
    (mimetype_resolution "book.m4b".data ["2021/03/15/episode.mp3".data] "2021/03/15/episode.mp3".data
      (by decide)).1 (by decide),
    (mimetype_resolution "song.mp3".data ["2021/03/15/episode.mp3".data] "2021/03/15/episode.mp3".data
      (by decide)).2.1 (by decide),
    (mimetype_resolution "song.mp3".data ["2021/03/15/episode.mp3".data] "2021/03/15/episode.mp3".data
      (by decide)).2.2.1,
    (mimetype_resolution "song.mp3".data ["2021/03/15/episode.mp3".data] "2021/03/15/episode.mp3".data
      (by decide)).2.2.2⟩

/-- Claim C8 counterexample: the image URL is handed to the template exactly
as produced, not entity-escaped: with a root URL containing `&` the raw
ampersand is passed through (`escape` would have produced `&amp;`).  The
mimetype field is likewise passed through untouched. -/
theorem as_xml_escape_counterexample :
    (Episode.as_xml_args
      { title := "t".data, url := "u".data, mimetype := some "audio/mpeg".data,
        length := 1, date := 0, image := some "http://a&b/c.png".data,
        speaker := "s".data, description := "d".data }).image_url
      = some "http://a&b/c.png".data
    ∧ Option.map xmlEscape (some "http://a&b/c.png".data)
      = some "http://a&amp;b/c.png".data
    ∧ some "http://a&b/c.png".data ≠ some "http://a&amp;b/c.png".data :=
  ⟨rfl, by decide, by decide⟩

/-- Claim C8 (amended): `Episode.as_xml` entity-escapes title, guid, speaker
and description, attribute-escapes url via `quoteattr`, and passes mimetype
and image URL through unmodified; `Channel.as_xml` entity-escapes the feed
title, description and link.  Escaped fields contain no literal `<` or `>`. -/
theorem as_xml_escaping (f : RawItemFields) (t d l items : List Char) :
    (Episode.as_xml_args f).title = xmlEscape f.title
    ∧ (Episode.as_xml_args f).guid = xmlEscape f.url
    ∧ (Episode.as_xml_args f).url = quoteattr f.url
    ∧ (Episode.as_xml_args f).speaker = xmlEscape f.speaker
    ∧ (Episode.as_xml_args f).description = xmlEscape f.description
    ∧ (Episode.as_xml_args f).mimetype = f.mimetype
    ∧ (Episode.as_xml_args f).image_url = f.image
    ∧ Channel.as_xml_args t d l items = ⟨xmlEscape t, xmlEscape d, xmlEscape l, items⟩
    ∧ (∀ s : List Char, '<' ∉ xmlEscape s ∧ '>' ∉ xmlEscape s) :=
  ⟨rfl, rfl, rfl, rfl, rfl, rfl, rfl, rfl,
    fun s => ⟨xmlEscape_no_lt s, xmlEscape_no_gt s⟩⟩

/-- Claim C8 witness. -/
theorem as_xml_escaping_witness :
    '<' ∉ xmlEscape "a<b".data :=
  ((as_xml_escaping ⟨[], [], none, 0, 0, none, [], []⟩ [] [] [] []).2.2.2.2.2.2.2.2
    "a<b".data).1

/-- Claim C9: `Channel.__iter__` dispatches to the object-store source
exactly when the root location contains both `s3` and `amazonaws.com` as
substrings; in particular a local-looking path containing both goes to the
object-store variant and an ordinary directory goes to the local variant. -/
theorem channel_source_dispatch :
    (∀ root : List Char,
      Channel.sourceKind root = SourceKind.objectStore ↔
        (isSubstr "s3".data root = true ∧ isSubstr "amazonaws.com".data root = true))
    ∧ Channel.sourceKind "/home/user/s3-mirror.amazonaws.com-backup".data
        = SourceKind.objectStore
    ∧ Channel.sourceKind "/srv/podcasts".data = SourceKind.localFS := by
  refine ⟨fun root => ?_, by decide, by decide⟩
  unfold Channel.sourceKind Channel.is_s3
  by_cases h1 : isSubstr "s3".data root = true <;>
    by_cases h2 : isSubstr "amazonaws.com".data root = true <;>
      simp [h1, h2]

/-- Claim C9 witness: a genuine bucket URL dispatches to the object store. -/
theorem channel_source_dispatch_witness :
    Channel.sourceKind "https://bucket.s3.eu-west-2.amazonaws.com/pods".data
      = SourceKind.objectStore :=
  (channel_source_dispatch.1 _).mpr ⟨by decide, by decide⟩

/-- Claim C10: a `date` tag that parses to the Unix epoch (timestamp 0) is
falsy and discarded — the date property returns the file's last-modified
time — and an empty `date` tag value skips parsing entirely with the same
fallback. -/
theorem date_zero_and_empty_discarded :
    (∀ (s : List Char) (mtime tz : Int) (st : Tm), strptimeFirst s = some st →
        mktime tz st = 0 → Episode.date (some s) mtime tz = mtime)
    ∧ (∀ (mtime tz : Int), Episode.date (some []) mtime tz = mtime) := by
  constructor
  · intro s mtime tz st hp hz
    have hs : s ≠ [] := by
      rintro rfl
      rw [show strptimeFirst [] = none from by decide] at hp
      exact Option.noConfusion hp
    simp [Episode.date, hs, hp, hz]
  · intro mtime tz
    simp [Episode.date]

/-- Claim C10 witness: the tag `1970-01-01` at UTC parses to timestamp 0 and
is discarded in favour of the modification time 42. -/
theorem date_zero_and_empty_discarded_witness :
    strptimeFirst "1970-01-01".data = some ⟨1970, 1, 1, 0, 0, 0⟩
    ∧ mktime 0 ⟨1970, 1, 1, 0, 0, 0⟩ = 0
    ∧ Episode.date (some "1970-01-01".data) 42 0 = 42
    ∧ Episode.date (some []) 42 0 = 42 :=
  ⟨by decide, by decide,
    date_zero_and_empty_discarded.1 "1970-01-01".data 42 0 ⟨1970, 1, 1, 0, 0, 0⟩
      (by decide) (by decide),
    date_zero_and_empty_discarded.2 42 0⟩

end Podcats
